import Mathlib

/-!
Verification of the instruction controller of a small educational CPU emulator
(file src/core/machine/instruction_controller.py).

The controller itself is embedded faithfully from the Python source.  The
external collaborators (memory store, register store, flag unit, clock) are
not part of the analysed sources; their behaviour is modelled from the
specification of the collaborator contracts.  Python generator handlers are
embedded as state transformers: the driver is specified to drain a handler
fully, so the sequence of committed side effects equals straight-line
execution, with every clock tick recorded in the machine state.  Exceptions
are modelled with an explicit result type carrying the state at the moment
the exception escapes, since partial side effects stay committed.
-/

set_option maxHeartbeats 1000000
set_option linter.unreachableTactic false
set_option linter.unusedTactic false

namespace PyAsm

/-- Operand variants of the data model: Constant, Register, Address (label
plus numeric offset), IndirectAddress (base offset plus a nested operand
resolved to an extra offset) and Label (a jump target holding a numeric
program location). -/
inductive Operand where
  | Constant (value : Int)
  | Register (rg : Nat)
  | Address (label : String) (value : Int)
  | IndirectAddress (label : String) (value : Int) (offset : Operand)
  | Label (value : Int)
  deriving DecidableEq

/-- Exceptions and control signals that can escape a handler.  The first four
correspond to OperandIsNotWriteable, the flag-unit division fault, the Python
ValueError family (chr range and int parsing) and the ProgramExit
termination signal.  DispatchError stands for the fatal lookup and arity
failures of the reflection-built dispatch, IndexError for indexing an empty
operand tuple, and Hang marks the one loop of the source that does not
terminate on a source operand that never yields the terminator. -/
inductive EngineSignal where
  | OperandIsNotWriteable (value : Int)
  | ZeroDivisionError
  | ValueError
  | ProgramExit
  | IndexError
  | DispatchError
  | Hang
  deriving DecidableEq

/-- Combined state of the collaborators: memory cells (by label and offset),
the stdin character stream and stdout sink stream, the register file, the
instruction pointer, the two ALU flags, and the two clock counters. -/
structure MachineState where
  mem : String → Int → Int
  stdin : List Int
  output : List Int
  registers : Nat → Int
  ip : Int
  flagZ : Bool
  flagN : Bool
  ticks : Nat
  insts : Nat

/-- Result of running a piece of engine code: normal completion or an
escaping exception, in both cases together with the machine state holding
all side effects committed so far. -/
inductive Res (α : Type) where
  | ok (a : α) (s : MachineState)
  | err (e : EngineSignal) (s : MachineState)

/-- Modelled from the spec: the dedicated label identifying the character
input stream (the docstrings of the source name it STDIN). -/
def STDIN_LABEL : String := "#STDIN"

/-- Modelled from the spec: the dedicated label identifying the standard
output character sink. -/
def STDOUT_LABEL : String := "#STDOUT"

/-- Modelled from the spec: the dedicated label identifying the error output
character sink. -/
def STDERR_LABEL : String := "#STDERR"

/-- Modelled from the spec: the configured sentinel terminator code
(NULL_TERM in core.machine.config, missing from the analysed sources); the
name indicates the null character, code zero. -/
def NULL_TERM : Int := 0

/-- Modelled from the spec: memory collaborator get.  A read on the input
label pops the next character code from the stream (the terminator when the
stream is exhausted); any other read returns the stored cell. -/
def memGetP (s : MachineState) (label : String) (idx : Int) : Int × MachineState :=
  if label = STDIN_LABEL then
    match s.stdin with
    | [] => (NULL_TERM, s)
    | c :: rest => (c, { s with stdin := rest })
  else (s.mem label idx, s)

/-- Modelled from the spec: memory collaborator set.  A write on a sink
label appends the value to the output stream; any other write updates the
addressed cell. -/
def memSetP (s : MachineState) (label : String) (idx : Int) (v : Int) : MachineState :=
  if label = STDOUT_LABEL ∨ label = STDERR_LABEL then
    { s with output := s.output ++ [v] }
  else
    { s with mem := fun l i => if l = label ∧ i = idx then v else s.mem l i }

/-- Operand resolution, from get_operand_value of the source: indirect
addresses resolve the nested offset first and add it to the base offset,
direct addresses and registers delegate to the collaborators, labels and
constants return their stored value. -/
def get_operand_value (s : MachineState) : Operand → Int × MachineState
  | .IndirectAddress label value offset =>
    let r := get_operand_value s offset
    memGetP r.2 label (value + r.1)
  | .Address label value => memGetP s label value
  | .Register rg => (s.registers rg, s)
  | .Constant value => (value, s)
  | .Label value => (value, s)

/-- Operand write, from set_operand_value of the source: indirect and direct
addresses and registers delegate to the collaborators, anything else raises
OperandIsNotWriteable carrying the operand value. -/
def set_operand_value (s : MachineState) (op : Operand) (v : Int) : Res Unit :=
  match op with
  | .IndirectAddress label value offset =>
    let r := get_operand_value s offset
    Res.ok () (memSetP r.2 label (value + r.1) v)
  | .Address label value => Res.ok () (memSetP s label value v)
  | .Register rg =>
    Res.ok () { s with registers := fun x => if x = rg then v else s.registers x }
  | .Constant value => Res.err (.OperandIsNotWriteable value) s
  | .Label value => Res.err (.OperandIsNotWriteable value) s

/-- Memory-class test used by the bus contention check. -/
def isMemClass : Operand → Bool
  | .Address _ _ => true
  | .IndirectAddress _ _ _ => true
  | _ => false

/-- Register-class test used by the bus contention check. -/
def isRegClass : Operand → Bool
  | .Register _ => true
  | _ => false

/-- Bus contention check, from the _same_bus method of the source: two
memory-class operands or two register-class operands share a bus. -/
def _same_bus (op1 op2 : Operand) : Bool :=
  (isMemClass op1 && isMemClass op2) || (isRegClass op1 && isRegClass op2)

/-- Modelled from the spec: one clock collaborator tick, advancing the cycle
counter. -/
def tickS (s : MachineState) : MachineState := { s with ticks := s.ticks + 1 }

/-- Reducer selector passed to the flag unit, one value per reduction
instruction of the source. -/
inductive ReduceOp where
  | add | sub | mul | div | mod | xor | and | or
  deriving DecidableEq

/-- Pure value of each reducer; floor division and floor modulo match the
Python division and modulo conventions, the bitwise operators match the
arbitrary-precision twos-complement bitwise operators of Python. -/
def applyReducer : ReduceOp → Int → Int → Int
  | .add, a, b => a + b
  | .sub, a, b => a - b
  | .mul, a, b => a * b
  | .div, a, b => Int.fdiv a b
  | .mod, a, b => Int.fmod a b
  | .xor, a, b => Int.xor a b
  | .and, a, b => Int.land a b
  | .or, a, b => Int.lor a b

/-- Division-like reducers, which fault on a zero second argument. -/
def isDivMod : ReduceOp → Bool
  | .div => true
  | .mod => true
  | _ => false

/-- Modelled from the spec: the flag unit operation.  It applies the binary
reducer, updates flag Z to whether the result is zero and flag N to whether
the result is negative, and raises the division fault (leaving the state
unchanged) when a division-like reducer gets a zero second argument. -/
def aluOperation (s : MachineState) (reducer : ReduceOp) (a b : Int) : Res Int :=
  if isDivMod reducer = true ∧ b = 0 then Res.err .ZeroDivisionError s
  else
    let r := applyReducer reducer a b
    Res.ok r { s with flagZ := decide (r = 0), flagN := decide (r < 0) }

/-- Reduction algorithm, from the _reduce_op method of the source: take the
first source operand only, read the destination, wait one cycle on bus
contention, read the source and tick, run the flag unit operation and tick,
then write the result back with no further tick.  Indexing an empty operand
tuple raises. -/
def _reduce_op (reducer : ReduceOp) (dest : Operand) (operands : List Operand)
    (s : MachineState) : Res Unit :=
  match operands with
  | [] => Res.err .IndexError s
  | operand :: _ =>
    let r1 := get_operand_value s dest
    let s1 := if _same_bus dest operand then tickS r1.2 else r1.2
    let r2 := get_operand_value s1 operand
    let s2 := tickS r2.2
    match aluOperation s2 reducer r1.1 r2.1 with
    | .err e s3 => Res.err e s3
    | .ok result s3 => set_operand_value (tickS s3) dest result

/-- Jump primitive, from the _jump_to method of the source: set the
instruction pointer to the label value minus one, compensating the
post-increment of the dispatch loop. -/
def _jump_to (s : MachineState) (labelValue : Int) : MachineState :=
  { s with ip := labelValue - 1 }

/-- Conditional jump primitive, from the _jmp_if method of the source. -/
def _jmp_if (s : MachineState) (labelValue : Int) (condition : Bool) : MachineState :=
  if condition then _jump_to s labelValue else s

/-- JMP handler. -/
def i_jmp (labelValue : Int) (s : MachineState) : Res Unit :=
  Res.ok () (_jump_to s labelValue)

/-- JE handler: jump when flag Z is set. -/
def i_je (labelValue : Int) (s : MachineState) : Res Unit :=
  Res.ok () (_jmp_if s labelValue s.flagZ)

/-- JNE handler: jump when flag Z is not set. -/
def i_jne (labelValue : Int) (s : MachineState) : Res Unit :=
  Res.ok () (_jmp_if s labelValue (!s.flagZ))

/-- JL handler: jump when flag N is set. -/
def i_jl (labelValue : Int) (s : MachineState) : Res Unit :=
  Res.ok () (_jmp_if s labelValue s.flagN)

/-- JG handler: jump when flag N is not set. -/
def i_jg (labelValue : Int) (s : MachineState) : Res Unit :=
  Res.ok () (_jmp_if s labelValue (!s.flagN))

/-- JLE handler: jump when flag Z or flag N is set. -/
def i_jle (labelValue : Int) (s : MachineState) : Res Unit :=
  Res.ok () (_jmp_if s labelValue (s.flagZ || s.flagN))

/-- JGE handler: jump when flag Z is set or flag N is not set. -/
def i_jge (labelValue : Int) (s : MachineState) : Res Unit :=
  Res.ok () (_jmp_if s labelValue (s.flagZ || !s.flagN))

/-- DEC handler: read the destination, tick, write back the value minus
one. -/
def i_dec (dest : Operand) (s : MachineState) : Res Unit :=
  let r := get_operand_value s dest
  set_operand_value (tickS r.2) dest (r.1 - 1)

/-- INC handler: read the destination, tick, write back the value plus
one. -/
def i_inc (dest : Operand) (s : MachineState) : Res Unit :=
  let r := get_operand_value s dest
  set_operand_value (tickS r.2) dest (r.1 + 1)

/-- MOV handler: read the source, tick, write the value to the
destination. -/
def i_mov (dest src : Operand) (s : MachineState) : Res Unit :=
  let r := get_operand_value s src
  set_operand_value (tickS r.2) dest r.1

/-- Character emission loop of the MOVN handler: write the code point of
each character to the destination, ticking after each write. -/
def movnLoop (dest : Operand) : List Char → MachineState → Res Unit
  | [], s => Res.ok () s
  | c :: rest, s =>
    match set_operand_value s dest (Int.ofNat c.toNat) with
    | .err e s1 => Res.err e s1
    | .ok _ s1 => movnLoop dest rest (tickS s1)

/-- MOVN handler: read the source once, tick, then emit the characters of
the base-10 string representation of the value (toString on Int matches the
Python str formatting of integers, including the leading minus sign). -/
def i_movn (dest src : Operand) (s : MachineState) : Res Unit :=
  let r := get_operand_value s src
  movnLoop dest (toString r.1).data (tickS r.2)

/-- One folding step of the integer parser: accept an ASCII decimal digit
and extend the accumulated value. -/
def digitStep (acc : Option Nat) (c : Int) : Option Nat :=
  match acc with
  | none => none
  | some n => if 48 ≤ c ∧ c ≤ 57 then some (n * 10 + (c - 48).toNat) else none

/-- Value of a nonempty all-digit code list, none otherwise. -/
def digitCodesVal (cs : List Int) : Option Nat :=
  if cs = [] then none else cs.foldl digitStep (some 0)

/-- Models the Python int parsing of the accumulated string: an optional
leading sign character followed by a nonempty run of decimal digits; the
empty string and any non-digit content fail. -/
def intOfCodes : List Int → Option Int
  | 45 :: rest => Option.map (fun n => -(Int.ofNat n)) (digitCodesVal rest)
  | 43 :: rest => Option.map (fun n => Int.ofNat n) (digitCodesVal rest)
  | cs => Option.map (fun n => Int.ofNat n) (digitCodesVal cs)

/-- Read loop of the LDN handler, from the while loop of the source: resolve
the source; on the terminator, parse the accumulated codes and write the
integer to the destination (a failed parse raises ValueError); otherwise
append the character (chr faults on a code outside the Unicode range) and
tick.  The Python loop diverges when the source never yields the terminator;
a fuel argument makes the embedding total, with exhaustion marked Hang. -/
def ldnLoop (dest src : Operand) : Nat → List Int → MachineState → Res Unit
  | 0, _, s => Res.err .Hang s
  | Nat.succ fuel, acc, s =>
    let r := get_operand_value s src
    if r.1 = NULL_TERM then
      match intOfCodes acc with
      | none => Res.err .ValueError r.2
      | some n => set_operand_value r.2 dest n
    else
      if r.1 < 0 ∨ 1114112 ≤ r.1 then Res.err .ValueError r.2
      else ldnLoop dest src fuel (acc ++ [r.1]) (tickS r.2)

/-- LDN handler.  The fuel exceeds the stream length, so a stream-backed
source never exhausts it. -/
def i_ldn (dest src : Operand) (s : MachineState) : Res Unit :=
  ldnLoop dest src (s.stdin.length + 1) [] s

/-- CMP handler: read both operands with the bus contention wait, tick, and
run the flag unit subtraction for its flag side effect only. -/
def i_cmp (var src : Operand) (s : MachineState) : Res Unit :=
  let r1 := get_operand_value s var
  let s1 := if _same_bus var src then tickS r1.2 else r1.2
  let r2 := get_operand_value s1 src
  let s2 := tickS r2.2
  match aluOperation s2 .sub r1.1 r2.1 with
  | .err e s3 => Res.err e s3
  | .ok _ s3 => Res.ok () s3

/-- HLT handler: tick once, then raise the ProgramExit termination signal. -/
def i_hlt (s : MachineState) : Res Unit :=
  Res.err .ProgramExit (tickS s)

/-- An instruction: a mnemonic, the operand list, and the optional
sub-instruction list (empty models the falsy Python value). -/
structure Instruction where
  name : String
  operands : List Operand
  sub : List Instruction

/-- Handler dispatch, from the reflection-built mnemonic table of the
source: look the mnemonic up, then unpack the operand list into the handler
arguments.  Jump mnemonics accept a Label argument; lookup and unpacking
failures of the dynamic dispatch are modelled as DispatchError. -/
def runHandler (inst : Instruction) (s : MachineState) : Res Unit :=
  if inst.name = "add" then
    match inst.operands with
    | dest :: ops => _reduce_op .add dest ops s
    | [] => Res.err .DispatchError s
  else if inst.name = "sub" then
    match inst.operands with
    | dest :: ops => _reduce_op .sub dest ops s
    | [] => Res.err .DispatchError s
  else if inst.name = "mul" then
    match inst.operands with
    | dest :: ops => _reduce_op .mul dest ops s
    | [] => Res.err .DispatchError s
  else if inst.name = "div" then
    match inst.operands with
    | dest :: ops => _reduce_op .div dest ops s
    | [] => Res.err .DispatchError s
  else if inst.name = "mod" then
    match inst.operands with
    | dest :: ops => _reduce_op .mod dest ops s
    | [] => Res.err .DispatchError s
  else if inst.name = "xor" then
    match inst.operands with
    | dest :: ops => _reduce_op .xor dest ops s
    | [] => Res.err .DispatchError s
  else if inst.name = "and" then
    match inst.operands with
    | dest :: ops => _reduce_op .and dest ops s
    | [] => Res.err .DispatchError s
  else if inst.name = "or" then
    match inst.operands with
    | dest :: ops => _reduce_op .or dest ops s
    | [] => Res.err .DispatchError s
  else if inst.name = "dec" then
    match inst.operands with
    | [dest] => i_dec dest s
    | _ => Res.err .DispatchError s
  else if inst.name = "inc" then
    match inst.operands with
    | [dest] => i_inc dest s
    | _ => Res.err .DispatchError s
  else if inst.name = "jmp" then
    match inst.operands with
    | [.Label lv] => i_jmp lv s
    | _ => Res.err .DispatchError s
  else if inst.name = "je" then
    match inst.operands with
    | [.Label lv] => i_je lv s
    | _ => Res.err .DispatchError s
  else if inst.name = "jne" then
    match inst.operands with
    | [.Label lv] => i_jne lv s
    | _ => Res.err .DispatchError s
  else if inst.name = "jl" then
    match inst.operands with
    | [.Label lv] => i_jl lv s
    | _ => Res.err .DispatchError s
  else if inst.name = "jg" then
    match inst.operands with
    | [.Label lv] => i_jg lv s
    | _ => Res.err .DispatchError s
  else if inst.name = "jle" then
    match inst.operands with
    | [.Label lv] => i_jle lv s
    | _ => Res.err .DispatchError s
  else if inst.name = "jge" then
    match inst.operands with
    | [.Label lv] => i_jge lv s
    | _ => Res.err .DispatchError s
  else if inst.name = "mov" then
    match inst.operands with
    | [dest, src] => i_mov dest src s
    | _ => Res.err .DispatchError s
  else if inst.name = "movn" then
    match inst.operands with
    | [dest, src] => i_movn dest src s
    | _ => Res.err .DispatchError s
  else if inst.name = "ldn" then
    match inst.operands with
    | [dest, src] => i_ldn dest src s
    | _ => Res.err .DispatchError s
  else if inst.name = "cmp" then
    match inst.operands with
    | [var, src] => i_cmp var src s
    | _ => Res.err .DispatchError s
  else if inst.name = "hlt" then
    match inst.operands with
    | [] => i_hlt s
    | _ => Res.err .DispatchError s
  else Res.err .DispatchError s

/-- Sub-instruction loop of the execute method: run each sub-instruction in
turn through the handler dispatch, stopping at the first escaping
exception. -/
def runSubs : List Instruction → MachineState → Res Unit
  | [], s => Res.ok () s
  | i :: rest, s =>
    match runHandler i s with
    | .err e s1 => Res.err e s1
    | .ok _ s1 => runSubs rest s1

/-- Body of the execute method: the sub-instruction loop when the
sub-instruction list is nonempty, the single handler otherwise. -/
def executeBody (inst : Instruction) (s : MachineState) : Res Unit :=
  match inst.sub with
  | [] => runHandler inst s
  | _ => runSubs inst.sub s

/-- The execute method of the source: run the body; when (and only when) it
completes without an escaping exception, advance the instruction pointer by
one, tick the clock once more and increment the instruction counter.  An
exception escaping the body propagates immediately, skipping that tail
bookkeeping, exactly as an exception escapes a Python generator with no
try-finally protection. -/
def execute (inst : Instruction) (s : MachineState) : Res Unit :=
  match executeBody inst s with
  | .err e s1 => Res.err e s1
  | .ok _ s1 =>
    Res.ok () { s1 with ip := s1.ip + 1, ticks := s1.ticks + 1, insts := s1.insts + 1 }

/-- Writable operand classes: exactly the register and memory classes. -/
def Writable (op : Operand) : Bool := isMemClass op || isRegClass op

/-- Syntactic test that resolving the operand can touch the input stream. -/
def touchesStdin : Operand → Bool
  | .Address label _ => label == STDIN_LABEL
  | .IndirectAddress label _ offset => label == STDIN_LABEL || touchesStdin offset
  | _ => false

/-- Syntactic test that a write to the operand lands on a sink label. -/
def writesSink : Operand → Bool
  | .Address label _ => label == STDOUT_LABEL || label == STDERR_LABEL
  | .IndirectAddress label _ _ => label == STDOUT_LABEL || label == STDERR_LABEL
  | _ => false

/-- A storage location: a register slot or a memory cell. -/
inductive Loc where
  | reg (rg : Nat)
  | mem (label : String) (idx : Int)
  deriving DecidableEq

/-- Effective storage location denoted by a writable operand in a given
state (the nested offset of an indirect address is resolved to compute the
cell index). -/
def effLoc (s : MachineState) : Operand → Option Loc
  | .Register rg => some (.reg rg)
  | .Address label value => some (.mem label value)
  | .IndirectAddress label value offset =>
    some (.mem label (value + (get_operand_value s offset).1))
  | _ => none

/-- Value stored at a location. -/
def readLoc (s : MachineState) : Loc → Int
  | .reg rg => s.registers rg
  | .mem label idx => s.mem label idx

/-- Transcribed from the condition table of the specification (section on
the jump family), for comparison with the embedded handlers: the flag
condition under which each jump mnemonic takes the jump. -/
def specJumpCond (name : String) (s : MachineState) : Bool :=
  match name with
  | "jmp" => true
  | "je" => s.flagZ
  | "jne" => !s.flagZ
  | "jl" => s.flagN
  | "jg" => !s.flagN
  | "jle" => s.flagZ || s.flagN
  | "jge" => s.flagZ || !s.flagN
  | _ => false

/-- Clock discipline of a handler result: whenever it is a normal
completion, the cycle counter has not decreased and the instruction counter
has not moved (only the dispatch loop tail touches the instruction
counter). -/
def ClockOk (r : Res Unit) (s : MachineState) : Prop :=
  ∀ s', r = Res.ok () s' → s.ticks ≤ s'.ticks ∧ s'.insts = s.insts

/-- A concrete machine state used by witnesses and counterexamples: empty
streams, all registers holding 5, all memory cells holding 0. -/
def s0 : MachineState :=
  { mem := fun _ _ => 0, stdin := [], output := [], registers := fun _ => 5,
    ip := 0, flagZ := false, flagN := false, ticks := 0, insts := 0 }

/-- A memory read touches every field except possibly the input stream. -/
theorem memGetP_shape (s : MachineState) (label : String) (idx : Int) :
    (memGetP s label idx).2.mem = s.mem ∧ (memGetP s label idx).2.registers = s.registers ∧
    (memGetP s label idx).2.output = s.output ∧ (memGetP s label idx).2.ip = s.ip ∧
    (memGetP s label idx).2.flagZ = s.flagZ ∧ (memGetP s label idx).2.flagN = s.flagN ∧
    (memGetP s label idx).2.ticks = s.ticks ∧ (memGetP s label idx).2.insts = s.insts := by
  unfold memGetP
  split
  · split <;> simp
  · simp

/-- Operand resolution touches every field except possibly the input
stream. -/
theorem get_state_shape (op : Operand) (s : MachineState) :
    (get_operand_value s op).2.mem = s.mem ∧
    (get_operand_value s op).2.registers = s.registers ∧
    (get_operand_value s op).2.output = s.output ∧
    (get_operand_value s op).2.ip = s.ip ∧
    (get_operand_value s op).2.flagZ = s.flagZ ∧
    (get_operand_value s op).2.flagN = s.flagN ∧
    (get_operand_value s op).2.ticks = s.ticks ∧
    (get_operand_value s op).2.insts = s.insts := by
  induction op generalizing s with
  | IndirectAddress label value offset ih =>
    obtain ⟨h1, h2, h3, h4, h5, h6, h7, h8⟩ := ih s
    obtain ⟨g1, g2, g3, g4, g5, g6, g7, g8⟩ :=
      memGetP_shape (get_operand_value s offset).2 label
        (value + (get_operand_value s offset).1)
    simp only [get_operand_value]
    exact ⟨g1.trans h1, g2.trans h2, g3.trans h3, g4.trans h4,
      g5.trans h5, g6.trans h6, g7.trans h7, g8.trans h8⟩
  | Address label value => exact memGetP_shape s label value
  | Register rg => simp [get_operand_value]
  | Constant value => simp [get_operand_value]
  | Label value => simp [get_operand_value]

/-- Resolving an operand that cannot touch the input stream leaves the state
unchanged. -/
theorem get_pure (op : Operand) (s : MachineState) (h : touchesStdin op = false) :
    (get_operand_value s op).2 = s := by
  induction op generalizing s with
  | IndirectAddress label value offset ih =>
    simp only [touchesStdin, Bool.or_eq_false_iff, beq_eq_false_iff_ne] at h
    simp only [get_operand_value]
    rw [ih s h.2]
    simp [memGetP, h.1]
  | Address label value =>
    simp only [touchesStdin, beq_eq_false_iff_ne] at h
    simp [get_operand_value, memGetP, h]
  | Register rg => simp [get_operand_value]
  | Constant value => simp [get_operand_value]
  | Label value => simp [get_operand_value]

/-- The value of a stream-free operand depends only on the memory cells and
the register file. -/
theorem get_val_congr (op : Operand) (s t : MachineState) (h : touchesStdin op = false)
    (hm : s.mem = t.mem) (hr : s.registers = t.registers) :
    (get_operand_value s op).1 = (get_operand_value t op).1 := by
  induction op generalizing s t with
  | IndirectAddress label value offset ih =>
    simp only [touchesStdin, Bool.or_eq_false_iff, beq_eq_false_iff_ne] at h
    simp only [get_operand_value]
    rw [get_pure offset s h.2, get_pure offset t h.2, ih s t h.2 hm hr]
    simp [memGetP, h.1, hm]
  | Address label value =>
    simp only [touchesStdin, beq_eq_false_iff_ne] at h
    simp [get_operand_value, memGetP, h, hm]
  | Register rg => simp [get_operand_value, hr]
  | Constant value => simp [get_operand_value]
  | Label value => simp [get_operand_value]

/-- The effective location of a stream-free operand depends only on the
memory cells and the register file. -/
theorem effLoc_congr (op : Operand) (s t : MachineState) (h : touchesStdin op = false)
    (hm : s.mem = t.mem) (hr : s.registers = t.registers) :
    effLoc s op = effLoc t op := by
  cases op with
  | IndirectAddress label value offset =>
    simp only [touchesStdin, Bool.or_eq_false_iff] at h
    simp [effLoc, get_val_congr offset s t h.2 hm hr]
  | _ => rfl

/-- A memory write touches only the memory cells and the output stream. -/
theorem memSetP_shape (s : MachineState) (label : String) (idx v : Int) :
    (memSetP s label idx v).stdin = s.stdin ∧
    (memSetP s label idx v).registers = s.registers ∧
    (memSetP s label idx v).ip = s.ip ∧
    (memSetP s label idx v).flagZ = s.flagZ ∧
    (memSetP s label idx v).flagN = s.flagN ∧
    (memSetP s label idx v).ticks = s.ticks ∧
    (memSetP s label idx v).insts = s.insts := by
  unfold memSetP
  split <;> simp

/-- A successful operand write never moves the clock counters. -/
theorem set_ok_clock (op : Operand) (v : Int) (s s' : MachineState)
    (h : set_operand_value s op v = Res.ok () s') :
    s'.ticks = s.ticks ∧ s'.insts = s.insts := by
  cases op with
  | IndirectAddress label value offset =>
    simp only [set_operand_value, Res.ok.injEq, true_and] at h
    subst h
    obtain ⟨_, _, _, _, _, h6, h7⟩ :=
      memSetP_shape (get_operand_value s offset).2 label
        (value + (get_operand_value s offset).1) v
    obtain ⟨_, _, _, _, _, _, g7, g8⟩ := get_state_shape offset s
    exact ⟨h6.trans g7, h7.trans g8⟩
  | Address label value =>
    simp only [set_operand_value, Res.ok.injEq, true_and] at h
    subst h
    obtain ⟨_, _, _, _, _, h6, h7⟩ := memSetP_shape s label value v
    exact ⟨h6, h7⟩
  | Register rg =>
    simp only [set_operand_value, Res.ok.injEq, true_and] at h
    subst h
    exact ⟨rfl, rfl⟩
  | Constant value => simp [set_operand_value] at h
  | Label value => simp [set_operand_value] at h

/-- A write through the operand resolver to a writable, stream-free,
non-sink operand succeeds, stores the value at the effective location of the
operand, and changes nothing else except the addressed cell or register. -/
theorem set_ok_loc (op : Operand) (v : Int) (t : MachineState) (ld : Loc)
    (hw : Writable op = true) (hs : touchesStdin op = false)
    (hk : writesSink op = false) (hld : effLoc t op = some ld) :
    ∃ u, set_operand_value t op v = Res.ok () u ∧ readLoc u ld = v ∧
      u.stdin = t.stdin ∧ u.output = t.output ∧ u.ip = t.ip ∧
      u.flagZ = t.flagZ ∧ u.flagN = t.flagN ∧
      u.ticks = t.ticks ∧ u.insts = t.insts := by
  cases op with
  | IndirectAddress label value offset =>
    simp only [touchesStdin, Bool.or_eq_false_iff, beq_eq_false_iff_ne] at hs
    simp only [writesSink, Bool.or_eq_false_iff, beq_eq_false_iff_ne] at hk
    simp only [effLoc, Option.some.injEq] at hld
    subst hld
    refine ⟨_, rfl, ?_⟩
    rw [get_pure offset t hs.2]
    simp [memSetP, readLoc, hk.1, hk.2]
  | Address label value =>
    simp only [writesSink, Bool.or_eq_false_iff, beq_eq_false_iff_ne] at hk
    simp only [effLoc, Option.some.injEq] at hld
    subst hld
    refine ⟨_, rfl, ?_⟩
    simp [set_operand_value, memSetP, readLoc, hk.1, hk.2]
  | Register rg =>
    simp only [effLoc, Option.some.injEq] at hld
    subst hld
    refine ⟨_, rfl, ?_⟩
    simp [set_operand_value, readLoc]
  | Constant value => simp [Writable, isMemClass, isRegClass] at hw
  | Label value => simp [Writable, isMemClass, isRegClass] at hw

/-- Claim C10: a reduction instruction invoked with more than one source
operand resolves only the first source operand; the second and later source
operands are never read and have no effect on the result, the flags or the
cycle count (the run equals the run with the extra operands dropped). -/
theorem reduce_extra_operands_ignored (red : ReduceOp) (dest op1 : Operand)
    (rest : List Operand) (s : MachineState) :
    _reduce_op red dest (op1 :: rest) s = _reduce_op red dest [op1] s := rfl

/-- Claim C3: HLT consumes exactly one clock cycle, then raises the
ProgramExit termination signal, which propagates out of execute uncaught;
the handler changes nothing else, in particular not the instruction
pointer. -/
theorem hlt_one_cycle_then_exit (s : MachineState) :
    i_hlt s = Res.err EngineSignal.ProgramExit { s with ticks := s.ticks + 1 } ∧
    execute ⟨"hlt", [], []⟩ s
      = Res.err EngineSignal.ProgramExit { s with ticks := s.ticks + 1 } :=
  ⟨rfl, rfl⟩

/-- Claim C6: writing any value to a Constant or Label operand fails with
the NotWriteable error carrying the operand value and leaves the state
untouched, while writes to Register, Address and IndirectAddress operands
(the latter at the resolved inner offset plus base offset) go through the
register and memory collaborators. -/
theorem set_operand_writeability (s : MachineState) (v : Int) :
    (∀ c : Int, set_operand_value s (.Constant c) v
        = Res.err (.OperandIsNotWriteable c) s) ∧
    (∀ lv : Int, set_operand_value s (.Label lv) v
        = Res.err (.OperandIsNotWriteable lv) s) ∧
    (∀ rg : Nat, set_operand_value s (.Register rg) v
        = Res.ok () { s with registers := fun x => if x = rg then v else s.registers x }) ∧
    (∀ (label : String) (idx : Int), set_operand_value s (.Address label idx) v
        = Res.ok () (memSetP s label idx v)) ∧
    (∀ (label : String) (idx : Int) (offset : Operand),
        set_operand_value s (.IndirectAddress label idx offset) v
          = Res.ok () (memSetP (get_operand_value s offset).2 label
              (idx + (get_operand_value s offset).1) v)) :=
  ⟨fun _ => rfl, fun _ => rfl, fun _ => rfl, fun _ _ => rfl, fun _ _ _ => rfl⟩

/-- Claim C2, amended: execute advances the instruction pointer by exactly
one (and performs the tail bookkeeping) only when the handler body completes
without an escaping exception; when the body raises, the exception
propagates out of execute at once and the post-increment is skipped. -/
theorem execute_ip_post_increment (inst : Instruction) (s : MachineState) :
    (∀ s1, executeBody inst s = Res.ok () s1 →
      execute inst s = Res.ok ()
        { s1 with ip := s1.ip + 1, ticks := s1.ticks + 1, insts := s1.insts + 1 }) ∧
    (∀ e s1, executeBody inst s = Res.err e s1 → execute inst s = Res.err e s1) := by
  constructor
  · intro s1 h
    simp [execute, h]
  · intro e s1 h
    simp [execute, h]

/-- Claim C2, counterexample: a MOV whose body faults with NotWriteable
leaves the instruction pointer where it was; it is not advanced by one as
the claim states for the faulting case. -/
theorem execute_ip_post_increment_cex :
    execute ⟨"mov", [Operand.Constant 7, Operand.Constant 1], []⟩ s0
      = Res.err (EngineSignal.OperandIsNotWriteable 7) { s0 with ticks := 1 } ∧
    ({ s0 with ticks := 1 } : MachineState).ip ≠ s0.ip + 1 :=
  ⟨rfl, by decide⟩

/-- Claim C2, witness: the amended theorem applied to a concrete JMP
instruction whose body completes normally. -/
theorem execute_ip_post_increment_wit :
    execute ⟨"jmp", [Operand.Label 5], []⟩ s0
      = Res.ok () { { s0 with ip := 4 } with ip := ({ s0 with ip := 4 } : MachineState).ip + 1, ticks := ({ s0 with ip := 4 } : MachineState).ticks + 1, insts := ({ s0 with ip := 4 } : MachineState).insts + 1 } :=
  (execute_ip_post_increment ⟨"jmp", [Operand.Label 5], []⟩ s0).1 { s0 with ip := 4 } rfl

/-- Claim C5: a jump instruction whose flag condition holds (as given by the
condition table of the specification) lands the instruction pointer exactly
on the label value after the dispatch loop post-increment, and one whose
condition fails leaves the pointer one past its pre-execution value; jumps
consume only the single overhead cycle. -/
theorem jump_family_lands (name : String) (lv : Int) (s : MachineState)
    (h : name ∈ ["jmp", "je", "jne", "jl", "jg", "jle", "jge"]) :
    ∃ s', execute ⟨name, [Operand.Label lv], []⟩ s = Res.ok () s' ∧
      s'.ip = (if specJumpCond name s then lv else s.ip + 1) ∧
      s'.ticks = s.ticks + 1 ∧ s'.insts = s.insts + 1 := by
  fin_cases h <;>
    cases hZ : s.flagZ <;> cases hN : s.flagN <;>
      refine ⟨_, rfl, ?_, ?_, ?_⟩ <;>
        simp [specJumpCond, _jmp_if, _jump_to, hZ, hN] <;> omega

/-- Claim C5, witness: the jump theorem applied to a concrete unconditional
JMP. -/
theorem jump_family_lands_wit :
    ∃ s', execute ⟨"jmp", [Operand.Label 9], []⟩ s0 = Res.ok () s' ∧
      s'.ip = (if specJumpCond "jmp" s0 then 9 else s0.ip + 1) ∧
      s'.ticks = s0.ticks + 1 ∧ s'.insts = s0.insts + 1 :=
  jump_family_lands "jmp" 9 s0 (by decide)

/-- Claim C4: a reduction instruction on a writable, stream-free, non-sink
destination holding v1 and a stream-free source holding v2 stores
reducer(v1, v2), computed through the flag unit, at the effective location
of the destination; flag Z ends true exactly when the result is zero and
flag N exactly when it is negative; the cycle cost is two cycles (three
under bus contention), with no extra cycle for the write-back. -/
theorem reduce_result_and_flags (red : ReduceOp) (dest src : Operand)
    (rest : List Operand) (s : MachineState) (v1 v2 : Int) (ld : Loc)
    (hw : Writable dest = true) (hd : touchesStdin dest = false)
    (hk : writesSink dest = false) (hsrc : touchesStdin src = false)
    (hv1 : (get_operand_value s dest).1 = v1)
    (hv2 : (get_operand_value s src).1 = v2)
    (hld : effLoc s dest = some ld)
    (hok : ¬(isDivMod red = true ∧ v2 = 0)) :
    ∃ s', _reduce_op red dest (src :: rest) s = Res.ok () s' ∧
      readLoc s' ld = applyReducer red v1 v2 ∧
      s'.flagZ = decide (applyReducer red v1 v2 = 0) ∧
      s'.flagN = decide (applyReducer red v1 v2 < 0) ∧
      s'.ticks = s.ticks + (if _same_bus dest src then 3 else 2) ∧
      s'.insts = s.insts := by
  have e1 : get_operand_value s dest = (v1, s) :=
    Prod.ext hv1 (get_pure dest s hd)
  cases hb : _same_bus dest src with
  | true =>
    have e2 : get_operand_value (tickS s) src = (v2, tickS s) :=
      Prod.ext ((get_val_congr src (tickS s) s hsrc rfl rfl).trans hv2)
        (get_pure src (tickS s) hsrc)
    have hloc := (effLoc_congr dest
      (tickS { tickS (tickS s) with flagZ := decide (applyReducer red v1 v2 = 0), flagN := decide (applyReducer red v1 v2 < 0) })
      s hd rfl rfl).trans hld
    obtain ⟨u, hu, hru, hust, huo, huip, huz, hun, hut, hui⟩ :=
      set_ok_loc dest (applyReducer red v1 v2) _ ld hw hd hk hloc
    refine ⟨u, ?_, hru, ?_, ?_, ?_, ?_⟩
    · simp only [_reduce_op, e1, hb, eq_self_iff_true, if_true, e2,
        aluOperation, if_neg hok]
      exact hu
    · rw [huz]
      simp [tickS]
    · rw [hun]
      simp [tickS]
    · rw [hut]
      simp [tickS]
    · rw [hui]
      simp [tickS]
  | false =>
    have e2 : get_operand_value s src = (v2, s) :=
      Prod.ext hv2 (get_pure src s hsrc)
    have hloc := (effLoc_congr dest
      (tickS { tickS s with flagZ := decide (applyReducer red v1 v2 = 0), flagN := decide (applyReducer red v1 v2 < 0) })
      s hd rfl rfl).trans hld
    obtain ⟨u, hu, hru, hust, huo, huip, huz, hun, hut, hui⟩ :=
      set_ok_loc dest (applyReducer red v1 v2) _ ld hw hd hk hloc
    refine ⟨u, ?_, hru, ?_, ?_, ?_, ?_⟩
    · simp only [_reduce_op, e1, hb, Bool.false_eq_true, if_false, e2,
        aluOperation, if_neg hok]
      exact hu
    · rw [huz]
      simp [tickS]
    · rw [hun]
      simp [tickS]
    · rw [hut]
      simp [tickS]
    · rw [hui]
      simp [tickS]

/-- Claim C4, witness: ADD on a register destination holding 5 and a
constant source 7 stores 12, clears both flags and costs two cycles. -/
theorem reduce_result_and_flags_wit :
    ∃ s', _reduce_op .add (.Register 0) [.Constant 7] s0 = Res.ok () s' ∧
      readLoc s' (.reg 0) = applyReducer .add 5 7 ∧
      s'.flagZ = decide (applyReducer .add 5 7 = 0) ∧
      s'.flagN = decide (applyReducer .add 5 7 < 0) ∧
      s'.ticks = s0.ticks + (if _same_bus (.Register 0) (.Constant 7) then 3 else 2) ∧
      s'.insts = s0.insts :=
  reduce_result_and_flags .add (.Register 0) (.Constant 7) [] s0 5 7 (.reg 0)
    rfl rfl rfl rfl rfl rfl rfl (by decide)

/-- Claim C7: DIV or MOD with a stream-free source resolving to zero raises
the flag unit division fault, which escapes the handler; the faulted run
leaves every storage cell, register and flag unchanged (in particular no
write to the destination happens), having consumed only the read cycles. -/
theorem div_mod_zero_faults (red : ReduceOp) (dest src : Operand)
    (rest : List Operand) (s : MachineState)
    (hred : red = ReduceOp.div ∨ red = ReduceOp.mod)
    (hd : touchesStdin dest = false) (hsrc : touchesStdin src = false)
    (hv2 : (get_operand_value s src).1 = 0) :
    _reduce_op red dest (src :: rest) s
      = Res.err EngineSignal.ZeroDivisionError
          { s with ticks := s.ticks + (if _same_bus dest src then 2 else 1) } := by
  obtain ⟨w, e1⟩ : ∃ w, get_operand_value s dest = (w, s) :=
    ⟨(get_operand_value s dest).1, Prod.ext rfl (get_pure dest s hd)⟩
  have hdm : isDivMod red = true := by
    rcases hred with rfl | rfl <;> rfl
  cases hb : _same_bus dest src with
  | true =>
    have e2 : get_operand_value (tickS s) src = (0, tickS s) :=
      Prod.ext ((get_val_congr src (tickS s) s hsrc rfl rfl).trans hv2)
        (get_pure src (tickS s) hsrc)
    simp only [_reduce_op, e1, hb, eq_self_iff_true, if_true, e2, aluOperation,
      hdm, true_and, and_self]
    rfl
  | false =>
    have e2 : get_operand_value s src = (0, s) :=
      Prod.ext hv2 (get_pure src s hsrc)
    simp only [_reduce_op, e1, hb, Bool.false_eq_true, if_false, e2,
      eq_self_iff_true, if_true, aluOperation, hdm, true_and, and_self]
    rfl

/-- Claim C7, witness: DIV of a register destination by the constant zero
faults after one cycle and changes nothing but the cycle counter. -/
theorem div_mod_zero_faults_wit :
    _reduce_op .div (.Register 0) [.Constant 0] s0
      = Res.err EngineSignal.ZeroDivisionError
          { s0 with ticks := s0.ticks + (if _same_bus (.Register 0) (.Constant 0) then 2 else 1) } :=
  div_mod_zero_faults .div (.Register 0) (.Constant 0) [] s0 (Or.inl rfl) rfl rfl rfl

/-- The MOVN emission loop on a sink destination appends the code point of
every character to the output stream in order and costs one cycle per
character. -/
theorem movnLoop_sink (label : String) (idx : Int)
    (hsink : label = STDOUT_LABEL ∨ label = STDERR_LABEL) :
    ∀ (cs : List Char) (s : MachineState),
      movnLoop (.Address label idx) cs s = Res.ok ()
        { s with output := s.output ++ cs.map (fun c => Int.ofNat c.toNat), ticks := s.ticks + cs.length } := by
  intro cs
  induction cs with
  | nil =>
    intro s
    simp [movnLoop]
  | cons c cs ih =>
    intro s
    simp only [movnLoop, set_operand_value, memSetP, if_pos hsink]
    rw [ih (tickS { s with output := s.output ++ [Int.ofNat c.toNat] })]
    simp [tickS, List.append_assoc]
    omega

/-- Claim C8: MOVN resolves a stream-free source exactly once and ticks
once, then emits the characters of the base-10 string representation of the
value (sign character first for negatives) to the sink destination, one code
per character, one cycle per character, in order. -/
theorem movn_emits_digits (label : String) (idx : Int) (src : Operand)
    (s : MachineState) (v : Int)
    (hsink : label = STDOUT_LABEL ∨ label = STDERR_LABEL)
    (hsrc : touchesStdin src = false)
    (hv : (get_operand_value s src).1 = v) :
    i_movn (.Address label idx) src s = Res.ok ()
      { s with output := s.output ++ (toString v).data.map (fun c => Int.ofNat c.toNat), ticks := s.ticks + 1 + (toString v).data.length } := by
  have e : get_operand_value s src = (v, s) := Prod.ext hv (get_pure src s hsrc)
  simp only [i_movn, e]
  rw [movnLoop_sink label idx hsink (toString v).data (tickS s)]
  simp [tickS]

/-- Claim C8, witness: MOVN of 1234 emits the codes of the four digit
characters in order, one cycle each; MOVN of -5 emits the sign character
code then the digit code. -/
theorem movn_emits_digits_wit :
    i_movn (.Address "#STDOUT" 0) (.Constant 1234) s0 = Res.ok ()
      { s0 with output := s0.output ++ (toString (1234 : Int)).data.map (fun c => Int.ofNat c.toNat), ticks := s0.ticks + 1 + (toString (1234 : Int)).data.length } ∧
    i_movn (.Address "#STDOUT" 0) (.Constant (-5)) s0 = Res.ok ()
      { s0 with output := s0.output ++ (toString (-5 : Int)).data.map (fun c => Int.ofNat c.toNat), ticks := s0.ticks + 1 + (toString (-5 : Int)).data.length } ∧
    (toString (1234 : Int)).data.map (fun c => Int.ofNat c.toNat) = [49, 50, 51, 52] ∧
    (toString (-5 : Int)).data.map (fun c => Int.ofNat c.toNat) = [45, 53] :=
  ⟨movn_emits_digits "#STDOUT" 0 (.Constant 1234) s0 1234 (Or.inl rfl) rfl rfl,
   movn_emits_digits "#STDOUT" 0 (.Constant (-5)) s0 (-5) (Or.inl rfl) rfl rfl,
   by decide, by decide⟩

/-- The LDN read loop on the input stream consumes the character codes up to
and including the first terminator, one cycle per accumulated character and
none for the terminator read, then parses the accumulated codes and either
faults or writes the parsed integer to the destination. -/
theorem ldnLoop_stream (dest : Operand) (idx : Int) :
    ∀ (codes rest acc : List Int) (s : MachineState) (fuel : Nat),
      (∀ c ∈ codes, c ≠ NULL_TERM ∧ 0 ≤ c ∧ c < 1114112) →
      s.stdin = codes ++ NULL_TERM :: rest → codes.length + 1 ≤ fuel →
      ldnLoop dest (.Address STDIN_LABEL idx) fuel acc s
        = (match intOfCodes (acc ++ codes) with
           | none => Res.err EngineSignal.ValueError { s with stdin := rest, ticks := s.ticks + codes.length }
           | some n => set_operand_value { s with stdin := rest, ticks := s.ticks + codes.length } dest n) := by
  intro codes
  induction codes with
  | nil =>
    intro rest acc s fuel hcs hstdin hfuel
    match fuel, hfuel with
    | Nat.succ f, _ =>
      have e : get_operand_value s (.Address STDIN_LABEL idx) = (NULL_TERM, { s with stdin := rest }) := by
        simp [get_operand_value, memGetP, hstdin]
      simp only [ldnLoop, e, if_pos rfl, List.append_nil]
      cases hio : intOfCodes acc <;> simp
  | cons c codes ih =>
    intro rest acc s fuel hcs hstdin hfuel
    match fuel, hfuel with
    | Nat.succ f, hfuel =>
      obtain ⟨hcne, hc0, hcr⟩ := hcs c (List.mem_cons_self c codes)
      have e : get_operand_value s (.Address STDIN_LABEL idx)
          = (c, { s with stdin := codes ++ NULL_TERM :: rest }) := by
        simp [get_operand_value, memGetP, hstdin]
      simp only [ldnLoop, e, if_neg hcne]
      rw [if_neg (by omega)]
      rw [ih rest (acc ++ [c]) (tickS { s with stdin := codes ++ NULL_TERM :: rest }) f
        (fun x hx => hcs x (List.mem_cons_of_mem c hx)) rfl (by simpa using hfuel)]
      rw [List.append_assoc]
      simp only [List.singleton_append]
      cases hio : intOfCodes (acc ++ c :: codes) with
      | none =>
        simp [tickS]
        omega
      | some n =>
        have harith : s.ticks + 1 + codes.length = s.ticks + (codes.length + 1) := by omega
        simp [tickS, harith]

/-- Claim C9: LDN on the input stream accumulates the character codes before
the first terminator, one cycle per accumulated character, then parses them
as a base-10 integer: on a successful parse the integer is written to the
effective location of the writable destination, and on the immediate
terminator (empty accumulation) the parse fault escapes with no write and no
state change beyond the consumed terminator. -/
theorem ldn_parses_stream (dest : Operand) (idx : Int) (codes rest : List Int)
    (s : MachineState) (ld : Loc)
    (hw : Writable dest = true) (hd : touchesStdin dest = false)
    (hk : writesSink dest = false) (hld : effLoc s dest = some ld)
    (hcs : ∀ c ∈ codes, c ≠ NULL_TERM ∧ 0 ≤ c ∧ c < 1114112)
    (hstdin : s.stdin = codes ++ NULL_TERM :: rest) :
    (∀ n, intOfCodes codes = some n →
      ∃ s', i_ldn dest (.Address STDIN_LABEL idx) s = Res.ok () s' ∧
        readLoc s' ld = n ∧ s'.stdin = rest ∧
        s'.ticks = s.ticks + codes.length ∧ s'.insts = s.insts) ∧
    (codes = [] → i_ldn dest (.Address STDIN_LABEL idx) s
      = Res.err EngineSignal.ValueError { s with stdin := rest }) := by
  have hrun := ldnLoop_stream dest idx codes rest [] s (s.stdin.length + 1) hcs hstdin
    (by rw [hstdin]; simp)
  constructor
  · intro n hn
    rw [List.nil_append] at hrun
    rw [hn] at hrun
    have hloc : effLoc { s with stdin := rest, ticks := s.ticks + codes.length } dest = some ld :=
      (effLoc_congr dest { s with stdin := rest, ticks := s.ticks + codes.length } s hd rfl rfl).trans hld
    obtain ⟨u, hu, hru, hust, huo, huip, huz, hun, hut, hui⟩ :=
      set_ok_loc dest n { s with stdin := rest, ticks := s.ticks + codes.length } ld hw hd hk hloc
    refine ⟨u, ?_, hru, ?_, ?_, ?_⟩
    · rw [i_ldn, hrun]
      exact hu
    · rw [hust]
    · rw [hut]
    · rw [hui]
  · intro hnil
    subst hnil
    rw [List.nil_append] at hrun
    rw [show intOfCodes ([] : List Int) = none from rfl] at hrun
    rw [i_ldn, hrun]
    simp

/-- Claim C9, witness: reading the digit characters 4 and 2 then the
terminator writes 42 to a register destination in two cycles; reading the
terminator immediately faults with the parse error and writes nothing. -/
theorem ldn_parses_stream_wit :
    (∃ s', i_ldn (.Register 0) (.Address STDIN_LABEL 0) { s0 with stdin := [52, 50, 0] }
        = Res.ok () s' ∧ readLoc s' (.reg 0) = 42 ∧ s'.stdin = [] ∧
        s'.ticks = ({ s0 with stdin := [52, 50, 0] } : MachineState).ticks + ([52, 50] : List Int).length ∧
        s'.insts = ({ s0 with stdin := [52, 50, 0] } : MachineState).insts) ∧
    i_ldn (.Register 0) (.Address STDIN_LABEL 0) { s0 with stdin := [0, 99] }
      = Res.err EngineSignal.ValueError { { s0 with stdin := [0, 99] } with stdin := [99] } :=
  ⟨(ldn_parses_stream (.Register 0) 0 [52, 50] [] { s0 with stdin := [52, 50, 0] } (.reg 0)
      rfl rfl rfl rfl (by decide) rfl).1 42 rfl,
   (ldn_parses_stream (.Register 0) 0 [] [99] { s0 with stdin := [0, 99] } (.reg 0)
      rfl rfl rfl rfl (by decide) rfl).2 rfl⟩

/-- Operand resolution never moves the cycle counter. -/
theorem get_ticks (op : Operand) (s : MachineState) :
    (get_operand_value s op).2.ticks = s.ticks :=
  (get_state_shape op s).2.2.2.2.2.2.1

/-- Operand resolution never moves the instruction counter. -/
theorem get_insts (op : Operand) (s : MachineState) :
    (get_operand_value s op).2.insts = s.insts :=
  (get_state_shape op s).2.2.2.2.2.2.2

/-- A successful flag unit operation moves neither clock counter. -/
theorem alu_ok_clock (t : MachineState) (red : ReduceOp) (a b : Int)
    (r : Int) (s3 : MachineState) (h : aluOperation t red a b = Res.ok r s3) :
    s3.ticks = t.ticks ∧ s3.insts = t.insts := by
  unfold aluOperation at h
  split at h
  · simp at h
  · simp only [Res.ok.injEq] at h
    obtain ⟨_, h2⟩ := h
    subst h2
    exact ⟨rfl, rfl⟩

/-- The flag-unit-and-write-back tail of the reduction algorithm costs one
cycle on success and leaves the instruction counter alone. -/
theorem reduce_tail_clock (red : ReduceOp) (dest : Operand) (a b : Int)
    (t s' : MachineState)
    (h : (match aluOperation t red a b with
          | .err e s3 => Res.err e s3
          | .ok result s3 => set_operand_value (tickS s3) dest result) = Res.ok () s') :
    s'.ticks = t.ticks + 1 ∧ s'.insts = t.insts := by
  cases halu : aluOperation t red a b with
  | err e s3 =>
    rw [halu] at h
    simp at h
  | ok result s3 =>
    rw [halu] at h
    obtain ⟨ht, hi⟩ := set_ok_clock dest result (tickS s3) s' h
    obtain ⟨a1, a2⟩ := alu_ok_clock t red a b result s3 halu
    have e1 : (tickS s3).ticks = s3.ticks + 1 := rfl
    have e2 : (tickS s3).insts = s3.insts := rfl
    omega

/-- A completed reduction run never decreases the cycle counter and never
moves the instruction counter. -/
theorem reduce_op_clock (red : ReduceOp) (dest : Operand) (ops : List Operand)
    (s s' : MachineState) (h : _reduce_op red dest ops s = Res.ok () s') :
    s.ticks ≤ s'.ticks ∧ s'.insts = s.insts := by
  cases ops with
  | nil => simp [_reduce_op] at h
  | cons operand rest =>
    cases hb : _same_bus dest operand <;>
      simp only [_reduce_op, hb, Bool.false_eq_true, if_false, if_true] at h
    · obtain ⟨h1, h2⟩ := reduce_tail_clock red dest _ _ _ s' h
      have a1 := get_ticks operand (get_operand_value s dest).2
      have a2 := get_ticks dest s
      have b1 := get_insts operand (get_operand_value s dest).2
      have b2 := get_insts dest s
      have e1 : (tickS (get_operand_value (get_operand_value s dest).2 operand).2).ticks
          = (get_operand_value (get_operand_value s dest).2 operand).2.ticks + 1 := rfl
      have e2 : (tickS (get_operand_value (get_operand_value s dest).2 operand).2).insts
          = (get_operand_value (get_operand_value s dest).2 operand).2.insts := rfl
      omega
    · obtain ⟨h1, h2⟩ := reduce_tail_clock red dest _ _ _ s' h
      have a1 := get_ticks operand (tickS (get_operand_value s dest).2)
      have a2 := get_ticks dest s
      have b1 := get_insts operand (tickS (get_operand_value s dest).2)
      have b2 := get_insts dest s
      have e1 : (tickS (get_operand_value (tickS (get_operand_value s dest).2) operand).2).ticks
          = (get_operand_value (tickS (get_operand_value s dest).2) operand).2.ticks + 1 := rfl
      have e2 : (tickS (get_operand_value (tickS (get_operand_value s dest).2) operand).2).insts
          = (get_operand_value (tickS (get_operand_value s dest).2) operand).2.insts := rfl
      have e3 : (tickS (get_operand_value s dest).2).ticks
          = (get_operand_value s dest).2.ticks + 1 := rfl
      have e4 : (tickS (get_operand_value s dest).2).insts
          = (get_operand_value s dest).2.insts := rfl
      omega

/-- A write after a single resolve-and-tick never decreases the cycle
counter and never moves the instruction counter. -/
theorem set_after_get_clock (dest xop : Operand) (v : Int) (s s' : MachineState)
    (h : set_operand_value (tickS (get_operand_value s xop).2) dest v = Res.ok () s') :
    s.ticks ≤ s'.ticks ∧ s'.insts = s.insts := by
  obtain ⟨ht, hi⟩ := set_ok_clock dest v _ s' h
  have a := get_ticks xop s
  have b := get_insts xop s
  have e1 : (tickS (get_operand_value s xop).2).ticks
      = (get_operand_value s xop).2.ticks + 1 := rfl
  have e2 : (tickS (get_operand_value s xop).2).insts
      = (get_operand_value s xop).2.insts := rfl
  omega

/-- The conditional jump primitive moves neither clock counter. -/
theorem jmp_if_clock (s : MachineState) (lv : Int) (c : Bool) :
    (_jmp_if s lv c).ticks = s.ticks ∧ (_jmp_if s lv c).insts = s.insts := by
  unfold _jmp_if _jump_to
  split <;> simp

/-- The comparison tail moves neither clock counter on success. -/
theorem cmp_tail_clock (red : ReduceOp) (a b : Int) (t s' : MachineState)
    (h : (match aluOperation t red a b with
          | .err e s3 => Res.err e s3
          | .ok _ s3 => Res.ok () s3) = Res.ok () s') :
    s'.ticks = t.ticks ∧ s'.insts = t.insts := by
  cases halu : aluOperation t red a b with
  | err e s3 =>
    rw [halu] at h
    simp at h
  | ok r s3 =>
    rw [halu] at h
    simp only [Res.ok.injEq, true_and] at h
    subst h
    exact alu_ok_clock t red a b r s3 halu

/-- A completed comparison never decreases the cycle counter and never moves
the instruction counter. -/
theorem cmp_clock (var src : Operand) (s s' : MachineState)
    (h : i_cmp var src s = Res.ok () s') :
    s.ticks ≤ s'.ticks ∧ s'.insts = s.insts := by
  cases hb : _same_bus var src <;>
    simp only [i_cmp, hb, Bool.false_eq_true, if_false, if_true] at h
  · obtain ⟨h1, h2⟩ := cmp_tail_clock .sub _ _ _ s' h
    have a1 := get_ticks src (get_operand_value s var).2
    have a2 := get_ticks var s
    have b1 := get_insts src (get_operand_value s var).2
    have b2 := get_insts var s
    have e1 : (tickS (get_operand_value (get_operand_value s var).2 src).2).ticks
        = (get_operand_value (get_operand_value s var).2 src).2.ticks + 1 := rfl
    have e2 : (tickS (get_operand_value (get_operand_value s var).2 src).2).insts
        = (get_operand_value (get_operand_value s var).2 src).2.insts := rfl
    omega
  · obtain ⟨h1, h2⟩ := cmp_tail_clock .sub _ _ _ s' h
    have a1 := get_ticks src (tickS (get_operand_value s var).2)
    have a2 := get_ticks var s
    have b1 := get_insts src (tickS (get_operand_value s var).2)
    have b2 := get_insts var s
    have e1 : (tickS (get_operand_value (tickS (get_operand_value s var).2) src).2).ticks
        = (get_operand_value (tickS (get_operand_value s var).2) src).2.ticks + 1 := rfl
    have e2 : (tickS (get_operand_value (tickS (get_operand_value s var).2) src).2).insts
        = (get_operand_value (tickS (get_operand_value s var).2) src).2.insts := rfl
    have e3 : (tickS (get_operand_value s var).2).ticks
        = (get_operand_value s var).2.ticks + 1 := rfl
    have e4 : (tickS (get_operand_value s var).2).insts
        = (get_operand_value s var).2.insts := rfl
    omega

/-- The MOVN emission loop never decreases the cycle counter and never moves
the instruction counter. -/
theorem movnLoop_clock (dest : Operand) (cs : List Char) (s s' : MachineState)
    (h : movnLoop dest cs s = Res.ok () s') :
    s.ticks ≤ s'.ticks ∧ s'.insts = s.insts := by
  induction cs generalizing s with
  | nil =>
    simp only [movnLoop, Res.ok.injEq, true_and] at h
    subst h
    simp
  | cons c cs ih =>
    simp only [movnLoop] at h
    cases hset : set_operand_value s dest (Int.ofNat c.toNat) with
    | err e s1 =>
      rw [hset] at h
      simp at h
    | ok a s1 =>
      rw [hset] at h
      obtain ⟨ht, hi⟩ := ih (tickS s1) h
      obtain ⟨st, si⟩ := set_ok_clock dest _ s s1 hset
      have e1 : (tickS s1).ticks = s1.ticks + 1 := rfl
      have e2 : (tickS s1).insts = s1.insts := rfl
      omega

/-- A completed MOVN never decreases the cycle counter and never moves the
instruction counter. -/
theorem movn_clock (dest src : Operand) (s s' : MachineState)
    (h : i_movn dest src s = Res.ok () s') :
    s.ticks ≤ s'.ticks ∧ s'.insts = s.insts := by
  simp only [i_movn] at h
  obtain ⟨ht, hi⟩ := movnLoop_clock dest _ _ s' h
  have a := get_ticks src s
  have b := get_insts src s
  have e1 : (tickS (get_operand_value s src).2).ticks
      = (get_operand_value s src).2.ticks + 1 := rfl
  have e2 : (tickS (get_operand_value s src).2).insts
      = (get_operand_value s src).2.insts := rfl
  omega

/-- The LDN read loop never decreases the cycle counter and never moves the
instruction counter. -/
theorem ldnLoop_clock (dest src : Operand) (fuel : Nat) (acc : List Int)
    (s s' : MachineState) (h : ldnLoop dest src fuel acc s = Res.ok () s') :
    s.ticks ≤ s'.ticks ∧ s'.insts = s.insts := by
  induction fuel generalizing acc s with
  | zero => simp [ldnLoop] at h
  | succ f ih =>
    simp only [ldnLoop] at h
    split at h
    · cases hio : intOfCodes acc with
      | none =>
        rw [hio] at h
        simp at h
      | some n =>
        rw [hio] at h
        obtain ⟨ht, hi⟩ := set_ok_clock dest n _ s' h
        have a := get_ticks src s
        have b := get_insts src s
        omega
    · split at h
      · simp at h
      · obtain ⟨ht, hi⟩ := ih _ _ h
        have a := get_ticks src s
        have b := get_insts src s
        have e1 : (tickS (get_operand_value s src).2).ticks
            = (get_operand_value s src).2.ticks + 1 := rfl
        have e2 : (tickS (get_operand_value s src).2).insts
            = (get_operand_value s src).2.insts := rfl
        omega

/-- Clock discipline is preserved by a two-way branch when both arms have
it. -/
theorem ClockOk_ite (c : Prop) [Decidable c] (a b : Res Unit) (s : MachineState)
    (ha : ClockOk a s) (hb : ClockOk b s) : ClockOk (if c then a else b) s := by
  by_cases hc : c
  · rw [if_pos hc]
    exact ha
  · rw [if_neg hc]
    exact hb

/-- An escaping exception satisfies the clock discipline vacuously. -/
theorem ClockOk_err (e : EngineSignal) (t s : MachineState) :
    ClockOk (Res.err e t) s := by
  intro s' h
  simp at h

/-- Reduction handler runs satisfy the clock discipline. -/
theorem ClockOk_reduce (red : ReduceOp) (s : MachineState) :
    ∀ ops : List Operand, ClockOk (match ops with
      | dest :: rest => _reduce_op red dest rest s
      | [] => Res.err EngineSignal.DispatchError s) s := by
  intro ops
  cases ops with
  | nil => exact ClockOk_err _ _ _
  | cons dest rest =>
    intro s' h
    exact reduce_op_clock _ _ _ _ _ h

/-- A completed handler run never decreases the cycle counter and never
moves the instruction counter. -/
theorem runHandler_clock (inst : Instruction) (s : MachineState) :
    ClockOk (runHandler inst s) s := by
  unfold runHandler
  apply ClockOk_ite _ _ _ _ (ClockOk_reduce .add s inst.operands)
  apply ClockOk_ite _ _ _ _ (ClockOk_reduce .sub s inst.operands)
  apply ClockOk_ite _ _ _ _ (ClockOk_reduce .mul s inst.operands)
  apply ClockOk_ite _ _ _ _ (ClockOk_reduce .div s inst.operands)
  apply ClockOk_ite _ _ _ _ (ClockOk_reduce .mod s inst.operands)
  apply ClockOk_ite _ _ _ _ (ClockOk_reduce .xor s inst.operands)
  apply ClockOk_ite _ _ _ _ (ClockOk_reduce .and s inst.operands)
  apply ClockOk_ite _ _ _ _ (ClockOk_reduce .or s inst.operands)
  apply ClockOk_ite
  · rcases inst.operands with _ | ⟨dest, _ | ⟨o2, ops⟩⟩
    · exact ClockOk_err _ _ _
    · intro s' h
      simp only [i_dec] at h
      exact set_after_get_clock _ _ _ _ _ h
    · exact ClockOk_err _ _ _
  apply ClockOk_ite
  · rcases inst.operands with _ | ⟨dest, _ | ⟨o2, ops⟩⟩
    · exact ClockOk_err _ _ _
    · intro s' h
      simp only [i_inc] at h
      exact set_after_get_clock _ _ _ _ _ h
    · exact ClockOk_err _ _ _
  apply ClockOk_ite
  · rcases inst.operands with _ | ⟨op, _ | ⟨o2, ops⟩⟩
    · exact ClockOk_err _ _ _
    · cases op
      case Label lv =>
        intro s' h
        simp only [i_jmp, Res.ok.injEq, true_and, _jump_to] at h
        subst h
        simp
      all_goals exact ClockOk_err _ _ _
    · cases op <;> exact ClockOk_err _ _ _
  apply ClockOk_ite
  · rcases inst.operands with _ | ⟨op, _ | ⟨o2, ops⟩⟩
    · exact ClockOk_err _ _ _
    · cases op
      case Label lv =>
        intro s' h
        simp only [i_je, Res.ok.injEq, true_and] at h
        subst h
        obtain ⟨a, b⟩ := jmp_if_clock s lv s.flagZ
        omega
      all_goals exact ClockOk_err _ _ _
    · cases op <;> exact ClockOk_err _ _ _
  apply ClockOk_ite
  · rcases inst.operands with _ | ⟨op, _ | ⟨o2, ops⟩⟩
    · exact ClockOk_err _ _ _
    · cases op
      case Label lv =>
        intro s' h
        simp only [i_jne, Res.ok.injEq, true_and] at h
        subst h
        obtain ⟨a, b⟩ := jmp_if_clock s lv (!s.flagZ)
        omega
      all_goals exact ClockOk_err _ _ _
    · cases op <;> exact ClockOk_err _ _ _
  apply ClockOk_ite
  · rcases inst.operands with _ | ⟨op, _ | ⟨o2, ops⟩⟩
    · exact ClockOk_err _ _ _
    · cases op
      case Label lv =>
        intro s' h
        simp only [i_jl, Res.ok.injEq, true_and] at h
        subst h
        obtain ⟨a, b⟩ := jmp_if_clock s lv s.flagN
        omega
      all_goals exact ClockOk_err _ _ _
    · cases op <;> exact ClockOk_err _ _ _
  apply ClockOk_ite
  · rcases inst.operands with _ | ⟨op, _ | ⟨o2, ops⟩⟩
    · exact ClockOk_err _ _ _
    · cases op
      case Label lv =>
        intro s' h
        simp only [i_jg, Res.ok.injEq, true_and] at h
        subst h
        obtain ⟨a, b⟩ := jmp_if_clock s lv (!s.flagN)
        omega
      all_goals exact ClockOk_err _ _ _
    · cases op <;> exact ClockOk_err _ _ _
  apply ClockOk_ite
  · rcases inst.operands with _ | ⟨op, _ | ⟨o2, ops⟩⟩
    · exact ClockOk_err _ _ _
    · cases op
      case Label lv =>
        intro s' h
        simp only [i_jle, Res.ok.injEq, true_and] at h
        subst h
        obtain ⟨a, b⟩ := jmp_if_clock s lv (s.flagZ || s.flagN)
        omega
      all_goals exact ClockOk_err _ _ _
    · cases op <;> exact ClockOk_err _ _ _
  apply ClockOk_ite
  · rcases inst.operands with _ | ⟨op, _ | ⟨o2, ops⟩⟩
    · exact ClockOk_err _ _ _
    · cases op
      case Label lv =>
        intro s' h
        simp only [i_jge, Res.ok.injEq, true_and] at h
        subst h
        obtain ⟨a, b⟩ := jmp_if_clock s lv (s.flagZ || !s.flagN)
        omega
      all_goals exact ClockOk_err _ _ _
    · cases op <;> exact ClockOk_err _ _ _
  apply ClockOk_ite
  · rcases inst.operands with _ | ⟨dest, _ | ⟨src, _ | ⟨o3, ops⟩⟩⟩
    · exact ClockOk_err _ _ _
    · exact ClockOk_err _ _ _
    · intro s' h
      simp only [i_mov] at h
      exact set_after_get_clock _ _ _ _ _ h
    · exact ClockOk_err _ _ _
  apply ClockOk_ite
  · rcases inst.operands with _ | ⟨dest, _ | ⟨src, _ | ⟨o3, ops⟩⟩⟩
    · exact ClockOk_err _ _ _
    · exact ClockOk_err _ _ _
    · intro s' h
      exact movn_clock _ _ _ _ h
    · exact ClockOk_err _ _ _
  apply ClockOk_ite
  · rcases inst.operands with _ | ⟨dest, _ | ⟨src, _ | ⟨o3, ops⟩⟩⟩
    · exact ClockOk_err _ _ _
    · exact ClockOk_err _ _ _
    · intro s' h
      simp only [i_ldn] at h
      exact ldnLoop_clock _ _ _ _ _ _ h
    · exact ClockOk_err _ _ _
  apply ClockOk_ite
  · rcases inst.operands with _ | ⟨var, _ | ⟨src, _ | ⟨o3, ops⟩⟩⟩
    · exact ClockOk_err _ _ _
    · exact ClockOk_err _ _ _
    · intro s' h
      exact cmp_clock _ _ _ _ h
    · exact ClockOk_err _ _ _
  apply ClockOk_ite
  · rcases inst.operands with _ | ⟨op, ops⟩
    · intro s' h
      simp [i_hlt] at h
    · exact ClockOk_err _ _ _
  exact ClockOk_err _ _ _

/-- A completed sub-instruction sequence never decreases the cycle counter
and never moves the instruction counter. -/
theorem runSubs_clock (l : List Instruction) (s s' : MachineState)
    (h : runSubs l s = Res.ok () s') :
    s.ticks ≤ s'.ticks ∧ s'.insts = s.insts := by
  induction l generalizing s with
  | nil =>
    simp only [runSubs, Res.ok.injEq, true_and] at h
    subst h
    simp
  | cons i rest ih =>
    simp only [runSubs] at h
    cases hrh : runHandler i s with
    | err e s1 =>
      rw [hrh] at h
      simp at h
    | ok a s1 =>
      rw [hrh] at h
      cases a
      obtain ⟨ht, hi⟩ := ih s1 h
      obtain ⟨a1, b1⟩ := runHandler_clock i s s1 hrh
      omega

/-- A completed handler body never decreases the cycle counter and never
moves the instruction counter. -/
theorem executeBody_clock (inst : Instruction) (s s' : MachineState)
    (h : executeBody inst s = Res.ok () s') :
    s.ticks ≤ s'.ticks ∧ s'.insts = s.insts := by
  unfold executeBody at h
  split at h
  · exact runHandler_clock _ _ _ h
  · exact runSubs_clock _ _ _ h

/-- Claim C1, amended: every instruction whose execution completes without
an escaping exception costs at least one cycle (the overhead tick on top of
whatever the handler consumed) and increments the instruction counter by
exactly one; when the handler raises, the tail bookkeeping is skipped, so
the instruction counter does not move. -/
theorem execute_clock (inst : Instruction) (s s' : MachineState)
    (h : execute inst s = Res.ok () s') :
    s.ticks + 1 ≤ s'.ticks ∧ s'.insts = s.insts + 1 := by
  unfold execute at h
  cases hb : executeBody inst s with
  | err e s1 =>
    rw [hb] at h
    simp at h
  | ok a s1 =>
    cases a
    rw [hb] at h
    simp only [Res.ok.injEq, true_and] at h
    subst h
    obtain ⟨a1, a2⟩ := executeBody_clock inst s s1 hb
    constructor <;> simp <;> omega

/-- Claim C1, counterexample: running HLT through execute raises ProgramExit
before the tail bookkeeping, so the instruction counter does not increase by
one as the claim states for raising handlers. -/
theorem execute_clock_cex :
    execute ⟨"hlt", [], []⟩ s0 = Res.err EngineSignal.ProgramExit { s0 with ticks := 1 } ∧
    ({ s0 with ticks := 1 } : MachineState).insts ≠ s0.insts + 1 :=
  ⟨rfl, by decide⟩

/-- Claim C1, witness: the amended theorem applied to a concrete JMP, whose
handler consumes no cycle of its own, still costs the one overhead cycle and
one instruction count. -/
theorem execute_clock_wit :
    s0.ticks + 1 ≤ ({ s0 with ip := 5, ticks := 1, insts := 1 } : MachineState).ticks ∧
    ({ s0 with ip := 5, ticks := 1, insts := 1 } : MachineState).insts = s0.insts + 1 :=
  execute_clock ⟨"jmp", [Operand.Label 5], []⟩ s0
    { s0 with ip := 5, ticks := 1, insts := 1 } rfl

end PyAsm
